import Mathlib

/-!
Verification of the collection-and-publication pipeline of the
`github-actions-exporter` repository (package `pkg/metrics`, plus the
repository-resolution logic of `pkg/config`).

The Go source is shallowly embedded: nullable pointer fields become
`Option`, Go maps become association lists looked up with `List.lookup`,
`float64` gauge values become exact integers (all values the program ever
sets are integers, except the billing gauge whose ms→s division is modelled
over `ℚ`), and `time.Time` values become integer Unix-epoch milliseconds,
with Go's `IsZero` modelled as equality with `0`.  Network calls are
parameters: each fetch site takes the response (or the per-call response
schedule) as an explicit argument.
-/

namespace GithubActionsExporter

/-- One workflow definition, `github.Workflow` as used by the exporter:
`{ID, Name, NodeID, State}`, every field a nullable pointer in Go. -/
structure Workflow where
  id : Option Int
  name : Option String
  nodeId : Option String
  state : Option String
deriving DecidableEq, Repr

/-- The base branch of a pull request (`pr.Base`), with its nullable `Ref`. -/
structure PullRequestBranch where
  ref : Option String
deriving DecidableEq, Repr

/-- A pull-request reference attached to a workflow run, with the fields the
exporter reads: `Number`, `Title`, `Base`. -/
structure PullRequest where
  number : Option Int
  title : Option String
  base : Option PullRequestBranch
deriving DecidableEq, Repr

/-- The head commit of a run, with its nullable `Message`. -/
structure HeadCommit where
  message : Option String
deriving DecidableEq, Repr

/-- An actor (`run.Actor` / `run.TriggeringActor`), with its nullable `Login`. -/
structure Actor where
  login : Option String
deriving DecidableEq, Repr

/-- A raw `github.WorkflowRun` record, restricted to the fields the exporter
reads.  Timestamps are Unix-epoch milliseconds; a `none` models a nil
pointer, while `some 0` models a present-but-zero `time.Time` (`IsZero`).
`pullRequests` is a list of nullable pointers, as in Go. -/
structure WorkflowRun where
  id : Option Int
  nodeId : Option String
  headBranch : Option String
  headSHA : Option String
  path : Option String
  runNumber : Option Int
  runAttempt : Option Int
  event : Option String
  displayTitle : Option String
  status : Option String
  conclusion : Option String
  workflowId : Option Int
  pullRequests : List (Option PullRequest)
  actor : Option Actor
  triggeringActor : Option Actor
  createdAt : Option Int
  updatedAt : Option Int
  runStartedAt : Option Int
  headCommit : Option HeadCommit
deriving DecidableEq, Repr

/-- A run record with every field absent; concrete runs in examples override
the fields they need. -/
def emptyRun : WorkflowRun :=
  ⟨none, none, none, none, none, none, none, none, none, none, none, none,
   [], none, none, none, none, none, none⟩

/-- `getSafeString` from `get_workflow_runs_from_github.go`: dereference a
nullable string, defaulting to `""`. -/
def getSafeString (s : Option String) : String :=
  match s with
  | some v => v
  | none => ""

/-- `getSafeInt64`: dereference a nullable int64, defaulting to `0`. -/
def getSafeInt64 (i : Option Int) : Int :=
  match i with
  | some v => v
  | none => 0

/-- `getSafeInt`: dereference a nullable int, defaulting to `0`. -/
def getSafeInt (i : Option Int) : Int :=
  match i with
  | some v => v
  | none => 0

/-- The global `workflows` cache,
`map[string]map[int64]*github.Workflow`, as an association list keyed by
repository full name; the inner map is an association list keyed by workflow
id whose values are nullable workflow pointers. -/
abbrev WorkflowCache : Type := List (String × List (Int × Option Workflow))

/-- The sentinel the exporter renders when the workflow-name cache lookup
misses. -/
def unknownWorkflowName : String := "unknown_workflow_name"

/-- Render a timestamp as the exporter's `_unix` label: Unix seconds when the
pointer is non-nil and the time non-zero, else `"0"` (Go
`strconv.FormatInt(t.Unix(), 10)` over our millisecond model). -/
def formatUnixLabel (t : Option Int) : String :=
  match t with
  | some v => if v ≠ 0 then toString (v / 1000) else "0"
  | none => "0"

/-- `getFieldValue` from `get_workflow_runs_from_github.go`: extract one label
value for a direct field name from a run, using the workflow-definition cache
for `"workflow_name"`; unhandled names render as `""`. -/
def getFieldValue (workflows : WorkflowCache) (repoFullName : String)
    (run : WorkflowRun) (fieldName : String) : String :=
  match fieldName with
  | "repo" => repoFullName
  | "run_id" => toString (getSafeInt64 run.id)
  | "node_id" => getSafeString run.nodeId
  | "head_branch" => getSafeString run.headBranch
  | "head_sha" => getSafeString run.headSHA
  | "path" => getSafeString run.path
  | "run_number" => toString (getSafeInt run.runNumber)
  | "run_attempt" => toString (getSafeInt run.runAttempt)
  | "event" => getSafeString run.event
  | "display_title" => getSafeString run.displayTitle
  | "status" => getSafeString run.status
  | "conclusion" => getSafeString run.conclusion
  | "workflow_id" => toString (getSafeInt64 run.workflowId)
  | "workflow_name" =>
    match workflows.lookup repoFullName with
    | some repoWorkflows =>
      match repoWorkflows.lookup (getSafeInt64 run.workflowId) with
      | some (some wf) =>
        match wf.name with
        | some n => n
        | none => unknownWorkflowName
      | some none => unknownWorkflowName
      | none => unknownWorkflowName
    | none => unknownWorkflowName
  | "pr_number" =>
    match run.pullRequests.head? with
    | some (some pr) =>
      match pr.number with
      | some n => toString n
      | none => ""
    | some none => ""
    | none => ""
  | "actor_login" =>
    match run.actor with
    | some a => getSafeString a.login
    | none => ""
  | "triggering_actor_login" =>
    match run.triggeringActor with
    | some a => getSafeString a.login
    | none => ""
  | "created_at_unix" => formatUnixLabel run.createdAt
  | "updated_at_unix" => formatUnixLabel run.updatedAt
  | "run_started_at_unix" => formatUnixLabel run.runStartedAt
  | _ => ""

/-- The numeric status code computed in the body of
`getWorkflowRunsFromGithub` from the run's (nil-safe) status and conclusion
strings.  Go stores it in a `float64`; every value is a small integer, so the
embedding uses `Int`. -/
def numericStatus (runStatus runConclusion : String) : Int :=
  if runStatus = "completed" then
    if runConclusion = "success" then 1
    else if runConclusion = "failure" then 0
    else if runConclusion = "cancelled" then 5
    else if runConclusion = "skipped" then 2
    else if runConclusion = "neutral" then 6
    else if runConclusion = "timed_out" then 7
    else 8
  else if runStatus = "in_progress" ∨ runStatus = "requested" ∨ runStatus = "waiting" then 3
  else if runStatus = "queued" then 4
  else if runStatus = "action_required" then 9
  else if runStatus = "stale" then 10
  else 99

/-- The base-branch ref of the run's first pull-request reference, when the
whole chain `PullRequests[0] → Base → Ref` is non-nil. -/
def firstPRBaseRef (run : WorkflowRun) : Option String :=
  match run.pullRequests.head? with
  | some (some pr) =>
    match pr.base with
    | some b => b.ref
    | none => none
  | some none => none
  | none => none

/-- The title of the run's first pull-request reference, when non-nil. -/
def firstPRTitle (run : WorkflowRun) : Option String :=
  match run.pullRequests.head? with
  | some (some pr) => pr.title
  | some none => none
  | none => none

/-- `derivedTargetBranch` as computed in `getWorkflowRunsFromGithub`: the PR
base ref for a `pull_request` event when present, else the run's head branch
when present, else `""`. -/
def derivedTargetBranch (run : WorkflowRun) : String :=
  match (if getSafeString run.event = "pull_request" then firstPRBaseRef run else none) with
  | some r => r
  | none => getSafeString run.headBranch

/-- `derivedCommitPrTitle` as computed in `getWorkflowRunsFromGithub`: the PR
title for a `pull_request` event, else a non-empty display title, else the
trimmed first line of the head-commit message, else `""`. -/
def derivedCommitPrTitle (run : WorkflowRun) : String :=
  match (if getSafeString run.event = "pull_request" then firstPRTitle run else none) with
  | some t => t
  | none =>
    match run.displayTitle with
    | some dt =>
      if dt ≠ "" then dt
      else
        match run.headCommit with
        | some hc =>
          match hc.message with
          | some m => ((m.splitOn "\x0a").headD m).trim
          | none => ""
        | none => ""
    | none =>
      match run.headCommit with
      | some hc =>
        match hc.message with
        | some m => ((m.splitOn "\x0a").headD m).trim
        | none => ""
      | none => ""

/-- One label value for one requested field name: the two derived fields are
produced by the caller's `switch`, everything else by `getFieldValue`. -/
def labelValue (workflows : WorkflowCache) (repoFullName : String)
    (run : WorkflowRun) (fieldName : String) : String :=
  match fieldName with
  | "derived_target_branch" => derivedTargetBranch run
  | "derived_commit_pr_title" => derivedCommitPrTitle run
  | _ => getFieldValue workflows repoFullName run fieldName

/-- The label vector built in `getWorkflowRunsFromGithub`: one value per
configured field name, in configuration order. -/
def buildLabelValues (workflows : WorkflowCache) (repoFullName : String)
    (run : WorkflowRun) (configuredFieldNames : List String) : List String :=
  configuredFieldNames.map (labelValue workflows repoFullName run)

/-- The run-duration value published by `getWorkflowRunsFromGithub` when
usage collection is enabled.  `usageDurationMs = some d` models a successful
`GetWorkflowRunUsageByID` call whose `RunDurationMS` was non-nil; `none`
models a failed call, a nil response, or a nil `RunDurationMS`.  On that
fallback path the wall-clock delta `UpdatedAt - RunStartedAt` (milliseconds)
is used only for a terminal run with both timestamps present, non-zero and
strictly increasing; otherwise the `-1` sentinel is kept. -/
def computeDurationMs (usageDurationMs : Option Int) (run : WorkflowRun) : Int :=
  match usageDurationMs with
  | some d => d
  | none =>
    let runStatus := getSafeString run.status
    match run.runStartedAt, run.updatedAt with
    | some started, some updated =>
      if (runStatus = "completed" ∨ runStatus = "stale") ∧ started ≠ 0 ∧ updated ≠ 0 then
        if started < updated then updated - started else -1
      else -1
    | some _, none => -1
    | none, some _ => -1
    | none, none => -1

/-- One response from a paginated list endpoint, as the fetch loops see it:
a `*github.RateLimitError`, any other error, or a page of items together with
the response's `NextPage` (`0` means no further page). -/
inductive PageResponse (α : Type) where
  | rateLimited
  | failed
  | page (items : List α) (nextPage : Nat)
deriving DecidableEq, Repr

/-- How a pagination loop ended: a page declared `NextPage = 0` (`success`),
a non-rate-limit error stopped it (`partialError`), or the modelled response
schedule was exhausted while the loop still wanted another page
(`outOfResponses`). -/
inductive FetchOutcome where
  | success
  | partialError
  | outOfResponses
deriving DecidableEq, Repr

/-- The pagination loop shared by `getWorkflowRunsToFetchFromRepo`,
`getAllRepoRunners`, `getAllOrgRunners`, `getAllReposForOrg` and
`getAllWorkflowsForRepo`: issue a request for the current page cursor, retry
the same cursor after a rate limit, return the accumulator on any other
error, append the page's items and continue at `NextPage`, stopping when a
response declares `NextPage = 0`.  The network is modelled by a finite
schedule of responses consumed one per request; the result also carries the
sequence of page cursors requested, in order. -/
def paginate {α : Type} :
    List (PageResponse α) → Nat → List α → List α × FetchOutcome × List Nat
  | [], _, acc => (acc, FetchOutcome.outOfResponses, [])
  | PageResponse.rateLimited :: rest, cur, acc =>
    let r := paginate rest cur acc
    (r.1, r.2.1, cur :: r.2.2)
  | PageResponse.failed :: _, cur, acc => (acc, FetchOutcome.partialError, [cur])
  | PageResponse.page items next :: rest, cur, acc =>
    if next = 0 then (acc ++ items, FetchOutcome.success, [cur])
    else
      let r := paginate rest next (acc ++ items)
      (r.1, r.2.1, cur :: r.2.2)

/-- A schedule consisting only of successful pages forming a chain:
non-empty, every page but the last declares a non-zero next cursor, and the
last page declares `0`. -/
def cleanChain {α : Type} (ps : List (List α × Nat)) : Prop :=
  ps ≠ [] ∧ (∀ p ∈ ps.dropLast, p.2 ≠ 0) ∧ (ps.getLast?.map Prod.snd = some 0)

instance {α : Type} [DecidableEq α] (ps : List (List α × Nat)) :
    Decidable (cleanChain ps) := by
  unfold cleanChain
  infer_instance

/-- A gauge vector (`prometheus.GaugeVec`) modelled as an association list
from label vectors to values; `Reset` clears it, `WithLabelValues(...).Set`
updates in place or appends. -/
abbrev Gauge (α : Type) : Type := List (List String × α)

/-- `gauge.WithLabelValues(labels...).Set(v)`: replace the value of an
existing label combination, or append a new child. -/
def gaugeSet {α : Type} : Gauge α → List String → α → Gauge α
  | [], labels, v => [(labels, v)]
  | (l, w) :: rest, labels, v =>
    if l = labels then (l, v) :: rest else (l, w) :: gaugeSet rest labels v

/-- `gauge.Reset()`: delete every child. -/
def gaugeReset {α : Type} (_ : Gauge α) : Gauge α := []

/-- One publish phase of a collector cycle: reset the gauge, then set every
label combination produced this cycle, in order. -/
def publish {α : Type} (results : List (List String × α)) (g : Gauge α) : Gauge α :=
  results.foldl (fun acc r => gaugeSet acc r.1 r.2) (gaugeReset g)

/-- First-seen-order deduplication loop of `periodicGithubFetcher`
(`uniqueReposMap` / `uniqueReposList`): keep a repository the first time it
is seen, drop later occurrences. -/
def dedupAux (seen : List String) : List String → List String
  | [] => []
  | r :: rest => if r ∈ seen then dedupAux seen rest else r :: dedupAux (r :: seen) rest

/-- Deduplicate a repository list by exact string identity, preserving
first-seen order. -/
def dedupRepos (rs : List String) : List String := dedupAux [] rs

/-- Repository resolution of `periodicGithubFetcher`: an explicitly
configured non-empty repository list wins; otherwise every non-empty
configured organization name is enumerated via `getAllReposForOrg`
(modelled by `orgRepos`) and the results concatenated; otherwise the empty
list.  The first two branches deduplicate; the returned second component is
the list of organizations actually enumerated, in order. -/
def resolveRepositories (explicitRepos orgs : List String)
    (orgRepos : String → List String) : List String × List String :=
  if explicitRepos ≠ [] then
    (dedupRepos explicitRepos, [])
  else if orgs ≠ [] then
    let enumerated := orgs.filter (fun o => o ≠ "")
    (dedupRepos (enumerated.flatMap orgRepos), enumerated)
  else ([], [])

/-- A self-hosted runner record (`github.Runner`), every field a nullable
pointer. -/
structure Runner where
  id : Option Int
  name : Option String
  os : Option String
  status : Option String
  busy : Option Bool
deriving DecidableEq, Repr

/-- Go `strconv.FormatBool`. -/
def formatBool (b : Bool) : String := if b then "true" else "false"

/-- The per-runner body of `getRunnersFromGithub`: a nil record or one with
any nil identity attribute is skipped (`none`); otherwise the published
series for the `github_runner_status` gauge, labelled
`(repo_full_name, runner_os, runner_name, runner_id, runner_busy)` with
value `1` when the status is `"online"` and `0` otherwise. -/
def processRepoRunner (repoFullName : String) (runner : Option Runner) :
    Option (List String × Int) :=
  match runner with
  | none => none
  | some r =>
    match r.id, r.name, r.os, r.status, r.busy with
    | some i, some n, some o, some s, some b =>
      some ([repoFullName, o, n, toString i, formatBool b],
            if s = "online" then 1 else 0)
    | _, _, _, _, _ => none

/-- The per-runner body of `getRunnersOrganizationFromGithub`: identical to
the repository variant, with the organization name as the first label of the
`github_runner_organization_status` gauge. -/
def processOrgRunner (orgaName : String) (runner : Option Runner) :
    Option (List String × Int) :=
  match runner with
  | none => none
  | some r =>
    match r.id, r.name, r.os, r.status, r.busy with
    | some i, some n, some o, some s, some b =>
      some ([orgaName, o, n, toString i, formatBool b],
            if s = "online" then 1 else 0)
    | _, _, _, _, _ => none

/-- The series one repository's runner list contributes in one cycle of
`getRunnersFromGithub`: each fetched record through `processRepoRunner`,
skipped records contributing nothing. -/
def repoRunnersCycleSeries (repoFullName : String)
    (runners : List (Option Runner)) : List (List String × Int) :=
  runners.filterMap (processRepoRunner repoFullName)

/-- Whether a fetched runner record carries all five identity attributes
(non-nil pointer, non-nil id, name, os, status, busy). -/
def isCompleteRunner (r : Option Runner) : Bool :=
  match r with
  | some r => r.id.isSome && r.name.isSome && r.os.isSome && r.status.isSome && r.busy.isSome
  | none => false

/-- The per-run samples of one `getWorkflowRunsFromGithub` cycle for one
repository: a nil run or one with a nil `ID` is skipped; every other run
yields exactly one (label vector, numeric status, duration) triple, the
duration computed from that run's usage-endpoint response
(`usageOf run`). -/
def runsCycleSamples (workflows : WorkflowCache) (configuredFieldNames : List String)
    (repoFullName : String) (usageOf : WorkflowRun → Option Int)
    (runs : List (Option WorkflowRun)) : List (List String × Int × Int) :=
  runs.filterMap (fun orun =>
    match orun with
    | some run =>
      if run.id ≠ none then
        some (buildLabelValues workflows repoFullName run configuredFieldNames,
              numericStatus (getSafeString run.status) (getSafeString run.conclusion),
              computeDurationMs (usageOf run) run)
      else none
    | none => none)

/-- The workflow-definition cache built by one `periodicGithubFetcher`
refresh (`newWorkflowsData`): for each resolved repository in order, skip
names not of the form `owner/name`; fetch its workflow definitions
(`getAllWorkflowsForRepo`, modelled by `fetchWorkflows` returning the
per-repository result, empty when the fetch failed outright); add a cache
entry only when at least one definition was fetched. -/
def buildWorkflowCache (repos : List String)
    (fetchWorkflows : String → List (Int × Option Workflow)) : WorkflowCache :=
  repos.filterMap (fun repoFullName =>
    if (repoFullName.splitOn "/").length = 2 then
      let wfs := fetchWorkflows repoFullName
      if wfs ≠ [] then some (repoFullName, wfs) else none
    else none)

/-- The billing series one cached workflow definition contributes in one
`getBillableFromGithub` cycle.  `usageResult` models the (retried)
`GetWorkflowUsageByID` call: `none` when every attempt failed or the
billable map was nil, otherwise the OS-keyed billable map, with `none`
entries modelling a nil `billData` or nil `TotalMS`.  A definition with any
nil field is skipped; each usable OS entry yields one
`github_workflow_usage_seconds` series labelled
`(repo, workflow_id, workflow_node_id, workflow_name, workflow_state,
os_type)` with value `TotalMS / 1000` seconds. -/
def billableSeriesForWorkflow (repoFullName : String) (wf : Option Workflow)
    (usageResult : Option (List (String × Option Int))) : List (List String × ℚ) :=
  match wf with
  | none => []
  | some w =>
    match w.id, w.name, w.nodeId, w.state with
    | some wid, some wname, some wnode, some wstate =>
      match usageResult with
      | none => []
      | some billMap =>
        billMap.filterMap (fun p =>
          match p.2 with
          | some totalMs =>
            some ([repoFullName, toString wid, wnode, wname, wstate, p.1.toUpper],
                  (totalMs : ℚ) / 1000)
          | none => none)
    | _, _, _, _ => []

/-- The full series list of one `getBillableFromGithub` cycle: iterate the
workflow-definition cache, skip malformed repository names, and emit the
billing series of every cached definition. -/
def billableSeries (cache : WorkflowCache)
    (usage : String → Int → Option (List (String × Option Int))) :
    List (List String × ℚ) :=
  cache.flatMap (fun entry =>
    if (entry.1.splitOn "/").length = 2 then
      entry.2.flatMap (fun wfEntry =>
        billableSeriesForWorkflow entry.1 wfEntry.2 (usage entry.1 wfEntry.1))
    else [])

/-- The cycles executed by the `getWorkflowRunsFromGithub` goroutine, as a
function of the `repositories` snapshot it sees at startup and the snapshot
at each subsequent tick: when the startup snapshot is empty the goroutine
returns before entering its ticker loop and no cycle ever runs; otherwise
every tick runs a cycle over that tick's snapshot. -/
def runsCollectorCycles (startupRepos : List String)
    (tickRepos : List (List String)) : List (List String) :=
  if startupRepos = [] then [] else tickRepos

/-- The cycles executed by the `getRunnersFromGithub` goroutine at each
tick: an empty `repositories` snapshot makes the tick `continue` without
resetting or publishing (`none`); a non-empty snapshot runs a full cycle
over it (`some`). -/
def runnersCollectorCycles (tickRepos : List (List String)) :
    List (Option (List String)) :=
  tickRepos.map (fun repos => if repos = [] then none else some repos)

/-- The guard of the duration fallback path, as a single boolean: the run is
terminal (`completed` or `stale`), both timestamps are present and non-zero,
and `UpdatedAt` is strictly after `RunStartedAt`. -/
def fallbackApplicable (run : WorkflowRun) : Bool :=
  match run.runStartedAt, run.updatedAt with
  | some started, some updated =>
    (getSafeString run.status == "completed" || getSafeString run.status == "stale")
      && started != 0 && updated != 0 && decide (started < updated)
  | _, _ => false

/-- Whether the run loop of `getWorkflowRunsFromGithub` processes a fetched
record: it must be a non-nil pointer with a non-nil `ID`. -/
def isProcessedRun (orun : Option WorkflowRun) : Bool :=
  match orun with
  | some run => run.id != none
  | none => false

/-- C1: the numeric status mapping is a total function over every
(status, conclusion) string pair and matches the §4.4 table exactly: for
status "completed" the conclusion maps success→1, failure→0, skipped→2,
cancelled→5, neutral→6, timed_out→7, any other conclusion→8; status
"in_progress", "requested" or "waiting" maps to 3, "queued" to 4,
"action_required" to 9, "stale" to 10, and any other status to 99, each
pair mapping to exactly one code. -/
theorem numericStatus_table :
    (numericStatus "completed" "success" = 1 ∧
     numericStatus "completed" "failure" = 0 ∧
     numericStatus "completed" "skipped" = 2 ∧
     numericStatus "completed" "cancelled" = 5 ∧
     numericStatus "completed" "neutral" = 6 ∧
     numericStatus "completed" "timed_out" = 7) ∧
    (∀ c : String, c ≠ "success" → c ≠ "failure" → c ≠ "skipped" → c ≠ "cancelled" →
      c ≠ "neutral" → c ≠ "timed_out" → numericStatus "completed" c = 8) ∧
    (∀ s c : String, (s = "in_progress" ∨ s = "requested" ∨ s = "waiting") →
      numericStatus s c = 3) ∧
    (∀ c : String, numericStatus "queued" c = 4) ∧
    (∀ c : String, numericStatus "action_required" c = 9) ∧
    (∀ c : String, numericStatus "stale" c = 10) ∧
    (∀ s c : String, s ≠ "completed" → s ≠ "in_progress" → s ≠ "requested" → s ≠ "waiting" →
      s ≠ "queued" → s ≠ "action_required" → s ≠ "stale" → numericStatus s c = 99) ∧
    (∀ s c : String, ∃! v : Int, numericStatus s c = v) := by
  refine ⟨by decide, ?_, ?_, ?_, ?_, ?_, ?_, ?_⟩
  · intro c h1 h2 h3 h4 h5 h6
    simp [numericStatus, h1, h2, h3, h4, h5, h6]
  · rintro s c (rfl | rfl | rfl) <;> simp [numericStatus]
  · intro c; simp [numericStatus]
  · intro c; simp [numericStatus]
  · intro c; simp [numericStatus]
  · intro s c h1 h2 h3 h4 h5 h6 h7
    simp [numericStatus, h1, h2, h3, h4, h5, h6, h7]
  · intro s c; exact ⟨numericStatus s c, rfl, fun y hy => hy.symm⟩

/-- Witness for C1: both catch-alls evaluated at concrete unmatched
strings. -/
theorem numericStatus_table_witness :
    numericStatus "completed" "startup_failure" = 8 ∧
    numericStatus "pending" "success" = 99 :=
  ⟨numericStatus_table.2.1 "startup_failure" (by decide) (by decide) (by decide)
      (by decide) (by decide) (by decide),
   numericStatus_table.2.2.2.2.2.2.1 "pending" "success" (by decide) (by decide)
      (by decide) (by decide) (by decide) (by decide) (by decide)⟩

/-- C2: for every processed run with duration collection enabled, the
published duration equals the usage endpoint's value when that call succeeds
with a non-null duration; otherwise, for a terminal (`completed`/`stale`) run
with both timestamps present, non-zero and strictly increasing, it equals the
millisecond difference `UpdatedAt − RunStartedAt`; in every other case it is
the `-1` sentinel; and a duration sample is produced for every processed run,
never omitted. -/
theorem computeDurationMs_spec :
    (∀ (run : WorkflowRun) (d : Int), computeDurationMs (some d) run = d) ∧
    (∀ (run : WorkflowRun) (started updated : Int),
      (getSafeString run.status = "completed" ∨ getSafeString run.status = "stale") →
      run.runStartedAt = some started → run.updatedAt = some updated →
      started ≠ 0 → updated ≠ 0 → started < updated →
      computeDurationMs none run = updated - started) ∧
    (∀ run : WorkflowRun, fallbackApplicable run = false →
      computeDurationMs none run = -1) ∧
    (∀ (workflows : WorkflowCache) (fields : List String) (repoFullName : String)
        (usageOf : WorkflowRun → Option Int) (runs : List (Option WorkflowRun)),
      (runsCycleSamples workflows fields repoFullName usageOf runs).length
        = (runs.filter isProcessedRun).length) ∧
    (∀ (workflows : WorkflowCache) (fields : List String) (repoFullName : String)
        (usageOf : WorkflowRun → Option Int) (runs : List (Option WorkflowRun))
        (run : WorkflowRun),
      some run ∈ runs → run.id ≠ none →
      (buildLabelValues workflows repoFullName run fields,
       numericStatus (getSafeString run.status) (getSafeString run.conclusion),
       computeDurationMs (usageOf run) run)
        ∈ runsCycleSamples workflows fields repoFullName usageOf runs) := by
  refine ⟨fun run d => rfl, ?_, ?_, ?_, ?_⟩
  · intro run s u hstat hs hu hs0 hu0 hlt
    simp [computeDurationMs, hs, hu]
    rw [if_pos ⟨hstat, hs0, hu0⟩, if_pos hlt]
  · intro run h
    cases hs : run.runStartedAt with
    | none => cases hu : run.updatedAt <;> simp [computeDurationMs, hs, hu]
    | some s =>
      cases hu : run.updatedAt with
      | none => simp [computeDurationMs, hs, hu]
      | some u =>
        simp [fallbackApplicable, hs, hu] at h
        simp [computeDurationMs, hs, hu]
        intro hstat hs0 hu0
        have := h hstat hs0 hu0
        intro hlt
        omega
  · intro w f repo usageOf runs
    induction runs with
    | nil => rfl
    | cons orun rest ih =>
      cases orun with
      | none =>
        simpa [runsCycleSamples, List.filterMap_cons, List.filter_cons, isProcessedRun] using ih
      | some run =>
        cases hid : run.id with
        | none =>
          simpa [runsCycleSamples, List.filterMap_cons, List.filter_cons, isProcessedRun,
            hid] using ih
        | some v =>
          simpa [runsCycleSamples, List.filterMap_cons, List.filter_cons, isProcessedRun,
            hid] using ih
  · intro w f repo usageOf runs run hmem hid
    exact List.mem_filterMap.mpr ⟨some run, hmem, by simp [hid]⟩

/-- Witness for C2: the spec's duration-fallback example, a completed run
with `UpdatedAt = RunStartedAt + 5000` milliseconds and a failed usage call
publishing `5000`, and the reversed-timestamps run publishing `-1`. -/
theorem computeDurationMs_spec_witness :
    computeDurationMs none
      { emptyRun with status := some "completed",
                      runStartedAt := some 1000, updatedAt := some 6000 } = 5000 ∧
    computeDurationMs none
      { emptyRun with status := some "completed",
                      runStartedAt := some 6000, updatedAt := some 1000 } = -1 := by
  constructor
  · have h := computeDurationMs_spec.2.1
      { emptyRun with status := some "completed",
                      runStartedAt := some 1000, updatedAt := some 6000 }
      1000 6000 (Or.inl (by decide)) rfl rfl (by decide) (by decide) (by decide)
    simpa using h
  · exact computeDurationMs_spec.2.2.1
      { emptyRun with status := some "completed",
                      runStartedAt := some 6000, updatedAt := some 1000 }
      (by decide)

/-- One step of the pagination loop on a page declaring a non-zero next
cursor: the items are appended and the loop continues at that cursor. -/
theorem paginate_page_step {α : Type} (items : List α) (next : Nat)
    (rest : List (PageResponse α)) (cur : Nat) (acc : List α) (h : next ≠ 0) :
    paginate (PageResponse.page items next :: rest) cur acc
      = ((paginate rest next (acc ++ items)).1, (paginate rest next (acc ++ items)).2.1,
         cur :: (paginate rest next (acc ++ items)).2.2) := by
  simp [paginate, h]

/-- On an error-free chain of pages ending with `NextPage = 0`, the
pagination loop succeeds, returns every page's items in order, and requests
exactly one cursor per page: the starting cursor followed by each page's
declared next cursor except the final zero. -/
theorem paginate_cleanChain {α : Type} :
    ∀ (ps : List (List α × Nat)) (cur : Nat) (acc : List α), cleanChain ps →
      paginate (ps.map fun p => PageResponse.page p.1 p.2) cur acc
        = (acc ++ (ps.map Prod.fst).flatten, FetchOutcome.success,
           cur :: ps.dropLast.map Prod.snd)
  | [], _, _, h => absurd rfl h.1
  | [p], cur, acc, h => by
    obtain ⟨-, -, hlast⟩ := h
    simp [List.getLast?] at hlast
    simp [paginate, hlast]
  | p :: q :: rest, cur, acc, h => by
    obtain ⟨-, hmid, hlast⟩ := h
    have hp : p.2 ≠ 0 := hmid p (by simp)
    have h2 : cleanChain (q :: rest) :=
      ⟨by simp, fun x hx => hmid x (by simp [hx]), by simpa using hlast⟩
    have ih := paginate_cleanChain (q :: rest) p.2 (acc ++ p.1) h2
    rw [List.map_cons, paginate_page_step _ _ _ _ _ hp, ih]
    simp [List.append_assoc]

/-- The pagination loop reports success only when some scheduled response
declared a zero next cursor. -/
theorem paginate_success_has_zero_page {α : Type} :
    ∀ (resp : List (PageResponse α)) (cur : Nat) (acc : List α),
      (paginate resp cur acc).2.1 = FetchOutcome.success →
      ∃ i items, resp.get? i = some (PageResponse.page items 0)
  | [], _, _, h => by simp [paginate] at h
  | PageResponse.rateLimited :: rest, cur, acc, h => by
    obtain ⟨i, items, hi⟩ :=
      paginate_success_has_zero_page rest cur acc (by simpa [paginate] using h)
    exact ⟨i + 1, items, by simpa using hi⟩
  | PageResponse.failed :: rest, cur, acc, h => by simp [paginate] at h
  | PageResponse.page items next :: rest, cur, acc, h => by
    by_cases hn : next = 0
    · exact ⟨0, items, by simp [hn]⟩
    · obtain ⟨i, its, hi⟩ :=
        paginate_success_has_zero_page rest next (acc ++ items)
          (by simpa [paginate, hn] using h)
      exact ⟨i + 1, its, by simpa using hi⟩

/-- C3: for every paginated fetch, a rate-limit error causes a retry of the
same page cursor (no page is skipped); any other error stops the loop and
returns the pages accumulated so far; and the loop terminates successfully
exactly when a response declares a zero next-page cursor, visiting each page
once. -/
theorem paginator_spec :
    (∀ (α : Type) (rest : List (PageResponse α)) (cur : Nat) (acc : List α),
      paginate (PageResponse.rateLimited :: rest) cur acc
        = ((paginate rest cur acc).1, (paginate rest cur acc).2.1,
           cur :: (paginate rest cur acc).2.2)) ∧
    (∀ (α : Type) (rest : List (PageResponse α)) (cur : Nat) (acc : List α),
      paginate (PageResponse.failed :: rest) cur acc
        = (acc, FetchOutcome.partialError, [cur])) ∧
    (∀ (α : Type) (ps : List (List α × Nat)) (cur : Nat) (acc : List α), cleanChain ps →
      paginate (ps.map fun p => PageResponse.page p.1 p.2) cur acc
        = (acc ++ (ps.map Prod.fst).flatten, FetchOutcome.success,
           cur :: ps.dropLast.map Prod.snd)) ∧
    (∀ (α : Type) (resp : List (PageResponse α)) (cur : Nat) (acc : List α),
      (paginate resp cur acc).2.1 = FetchOutcome.success →
      ∃ i items, resp.get? i = some (PageResponse.page items 0)) :=
  ⟨fun _ _ _ _ => rfl, fun _ _ _ _ => rfl,
   fun _ ps cur acc h => paginate_cleanChain ps cur acc h,
   fun _ resp cur acc h => paginate_success_has_zero_page resp cur acc h⟩

/-- Witness for C3: a concrete two-page chain is fetched completely, in
order, with one request per page. -/
theorem paginator_spec_witness :
    cleanChain [([1, 2], 5), ([3], 0)] ∧
    paginate [PageResponse.page [1, 2] 5, PageResponse.page [3] 0] 0 ([] : List Nat)
      = ([1, 2, 3], FetchOutcome.success, [0, 5]) := by
  refine ⟨by decide, ?_⟩
  have h := paginator_spec.2.2.1 Nat [([1, 2], 5), ([3], 0)] 0 [] (by decide)
  simpa using h

theorem dedupAux_sublist : ∀ (seen l : List String), List.Sublist (dedupAux seen l) l
  | _, [] => List.Sublist.slnil
  | seen, r :: rest => by
    by_cases h : r ∈ seen
    · simp only [dedupAux, if_pos h]
      exact (dedupAux_sublist seen rest).cons r
    · simp only [dedupAux, if_neg h]
      exact (dedupAux_sublist (r :: seen) rest).cons₂ r

theorem mem_dedupAux : ∀ (seen l : List String) (a : String),
    a ∈ dedupAux seen l ↔ a ∈ l ∧ a ∉ seen
  | seen, [], a => by simp [dedupAux]
  | seen, r :: rest, a => by
    by_cases h : r ∈ seen
    · simp only [dedupAux, if_pos h]
      rw [mem_dedupAux seen rest a]
      constructor
      · rintro ⟨h1, h2⟩
        exact ⟨List.mem_cons_of_mem r h1, h2⟩
      · rintro ⟨h1, h2⟩
        rcases List.mem_cons.mp h1 with rfl | h1
        · exact absurd h h2
        · exact ⟨h1, h2⟩
    · simp only [dedupAux, if_neg h, List.mem_cons]
      rw [mem_dedupAux (r :: seen) rest a]
      constructor
      · rintro (rfl | ⟨h1, h2⟩)
        · exact ⟨Or.inl rfl, h⟩
        · exact ⟨Or.inr h1, fun hs => h2 (List.mem_cons_of_mem r hs)⟩
      · rintro ⟨rfl | h1, h2⟩
        · exact Or.inl rfl
        · by_cases hr : a = r
          · exact Or.inl hr
          · exact Or.inr ⟨h1, fun hs => (List.mem_cons.mp hs).elim hr h2⟩

theorem dedupAux_nodup : ∀ (seen l : List String), (dedupAux seen l).Nodup
  | seen, [] => List.nodup_nil
  | seen, r :: rest => by
    by_cases h : r ∈ seen
    · simp only [dedupAux, if_pos h]
      exact dedupAux_nodup seen rest
    · simp only [dedupAux, if_neg h]
      refine List.nodup_cons.mpr ⟨?_, dedupAux_nodup (r :: seen) rest⟩
      intro hmem
      exact ((mem_dedupAux _ _ _).mp hmem).2 (List.mem_cons_self r seen)

theorem dedupAux_of_disjoint : ∀ (seen l : List String),
    l.Nodup → (∀ a ∈ l, a ∉ seen) → dedupAux seen l = l
  | _, [], _, _ => rfl
  | seen, r :: rest, hnd, hdis => by
    have h : r ∉ seen := hdis r (List.mem_cons_self r rest)
    simp only [dedupAux, if_neg h]
    congr 1
    refine dedupAux_of_disjoint (r :: seen) rest (List.nodup_cons.mp hnd).2 ?_
    intro a ha hin
    rcases List.mem_cons.mp hin with rfl | hin2
    · exact (List.nodup_cons.mp hnd).1 ha
    · exact hdis a (List.mem_cons_of_mem r ha) hin2

/-- C4: whenever the explicitly configured repository list is non-empty, the
resolved set is exactly that list deduplicated by exact string identity
preserving first-seen order, and organization enumeration is never invoked
(no organization is enumerated and the result does not depend on the
enumeration function); only when the explicit list is empty are the
configured organizations enumerated, their repositories concatenated in
order and deduplicated preserving first-seen order. -/
theorem resolveRepositories_spec :
    (∀ (explicitRepos orgs : List String) (orgRepos : String → List String),
      explicitRepos ≠ [] →
      resolveRepositories explicitRepos orgs orgRepos = (dedupRepos explicitRepos, [])) ∧
    (∀ (orgs : List String) (orgRepos : String → List String),
      orgs ≠ [] →
      resolveRepositories [] orgs orgRepos
        = (dedupRepos ((orgs.filter fun o => o ≠ "").flatMap orgRepos),
           orgs.filter fun o => o ≠ "")) ∧
    (∀ l : List String, List.Sublist (dedupRepos l) l) ∧
    (∀ l : List String, (dedupRepos l).Nodup) ∧
    (∀ (l : List String) (a : String), a ∈ dedupRepos l ↔ a ∈ l) ∧
    (∀ l : List String, l.Nodup → dedupRepos l = l) := by
  refine ⟨?_, ?_, ?_, ?_, ?_, ?_⟩
  · intro ex orgs f h
    simp [resolveRepositories, h]
  · intro orgs f h
    simp [resolveRepositories, h]
  · intro l
    exact dedupAux_sublist [] l
  · intro l
    exact dedupAux_nodup [] l
  · intro l a
    rw [dedupRepos, mem_dedupAux]
    simp
  · intro l h
    exact dedupAux_of_disjoint [] l h (by simp)

/-- Witness for C4: a concrete explicit list with a duplicate wins over a
configured organization; the duplicate is dropped, order kept, and the
organization contributes nothing. -/
theorem resolveRepositories_spec_witness :
    resolveRepositories ["a/b", "a/b", "c/d"] ["orgx"] (fun _ => ["z/z"])
      = (["a/b", "c/d"], []) := by
  have h := resolveRepositories_spec.1 ["a/b", "a/b", "c/d"] ["orgx"]
    (fun _ => ["z/z"]) (by decide)
  rw [h]
  decide

/-- C5: a run whose workflow id (or whole repository) is absent from the
workflow-definition cache still produces a label vector whose length equals
the configured field-name list — entry by entry the image of the per-field
derivation — with the workflow-name field rendered as the fixed sentinel
"unknown_workflow_name". -/
theorem cacheMiss_labelVector_spec :
    (∀ (workflows : WorkflowCache) (repoFullName : String) (run : WorkflowRun)
        (fields : List String),
      (buildLabelValues workflows repoFullName run fields).length = fields.length) ∧
    (∀ (workflows : WorkflowCache) (repoFullName : String) (run : WorkflowRun)
        (fields : List String) (i : Nat),
      (buildLabelValues workflows repoFullName run fields)[i]?
        = (fields[i]?).map (labelValue workflows repoFullName run)) ∧
    (∀ (workflows : WorkflowCache) (repoFullName : String) (run : WorkflowRun),
      workflows.lookup repoFullName = none →
      labelValue workflows repoFullName run "workflow_name" = unknownWorkflowName) ∧
    (∀ (workflows : WorkflowCache) (repoFullName : String) (run : WorkflowRun)
        (repoWorkflows : List (Int × Option Workflow)),
      workflows.lookup repoFullName = some repoWorkflows →
      repoWorkflows.lookup (getSafeInt64 run.workflowId) = none →
      labelValue workflows repoFullName run "workflow_name" = unknownWorkflowName) := by
  refine ⟨?_, ?_, ?_, ?_⟩
  · intro w repo run fields
    exact List.length_map fields _
  · intro w repo run fields i
    exact List.getElem?_map _ fields i
  · intro w repo run h
    simp [labelValue, getFieldValue, h]
  · intro w repo run rwfs h1 h2
    simp [labelValue, getFieldValue, h1, h2]

/-- Witness for C5: the empty cache misses a concrete repository, and a
three-field configuration still yields a three-entry vector carrying the
sentinel. -/
theorem cacheMiss_labelVector_spec_witness :
    buildLabelValues [] "o/r"
        { emptyRun with workflowId := some 7 } ["repo", "workflow_name", "status"]
      = ["o/r", "unknown_workflow_name", ""] ∧
    ([] : WorkflowCache).lookup "o/r" = none ∧
    labelValue [] "o/r" { emptyRun with workflowId := some 7 } "workflow_name"
      = unknownWorkflowName := by
  refine ⟨by decide, rfl, ?_⟩
  exact cacheMiss_labelVector_spec.2.2.1 [] "o/r"
    { emptyRun with workflowId := some 7 } rfl

/-- C6: the derived target-branch label equals the pull request's base ref
when the triggering event is "pull_request" and a base ref is present;
otherwise the run's head branch when present; otherwise the empty string. -/
theorem derivedTargetBranch_spec :
    (∀ (run : WorkflowRun) (b : String),
      getSafeString run.event = "pull_request" → firstPRBaseRef run = some b →
      derivedTargetBranch run = b) ∧
    (∀ (run : WorkflowRun) (h : String),
      (getSafeString run.event ≠ "pull_request" ∨ firstPRBaseRef run = none) →
      run.headBranch = some h → derivedTargetBranch run = h) ∧
    (∀ run : WorkflowRun,
      (getSafeString run.event ≠ "pull_request" ∨ firstPRBaseRef run = none) →
      run.headBranch = none → derivedTargetBranch run = "") := by
  refine ⟨?_, ?_, ?_⟩
  · intro run b hev hpr
    simp [derivedTargetBranch, hev, hpr]
  · intro run h hcase hhb
    by_cases hev : getSafeString run.event = "pull_request"
    · have hpr : firstPRBaseRef run = none := by
        rcases hcase with hev2 | hpr
        · exact absurd hev hev2
        · exact hpr
      unfold derivedTargetBranch
      rw [if_pos hev, hpr]
      simp [hhb, getSafeString]
    · unfold derivedTargetBranch
      rw [if_neg hev]
      simp [hhb, getSafeString]
  · intro run hcase hhb
    by_cases hev : getSafeString run.event = "pull_request"
    · have hpr : firstPRBaseRef run = none := by
        rcases hcase with hev2 | hpr
        · exact absurd hev hev2
        · exact hpr
      unfold derivedTargetBranch
      rw [if_pos hev, hpr]
      simp [hhb, getSafeString]
    · unfold derivedTargetBranch
      rw [if_neg hev]
      simp [hhb, getSafeString]

/-- Witness for C6: the spec's examples — a pull_request run with base ref
"main" and head branch "feature/x" resolves to "main"; a push run with head
branch "release" resolves to "release". -/
theorem derivedTargetBranch_spec_witness :
    derivedTargetBranch
      { emptyRun with event := some "pull_request", headBranch := some "feature/x",
                      pullRequests := [some ⟨none, none, some ⟨some "main"⟩⟩] } = "main" ∧
    derivedTargetBranch
      { emptyRun with event := some "push", headBranch := some "release" } = "release" := by
  constructor
  · exact derivedTargetBranch_spec.1
      { emptyRun with event := some "pull_request", headBranch := some "feature/x",
                      pullRequests := [some ⟨none, none, some ⟨some "main"⟩⟩] }
      "main" (by decide) (by decide)
  · exact derivedTargetBranch_spec.2.1
      { emptyRun with event := some "push", headBranch := some "release" }
      "release" (Or.inl (by decide)) rfl

theorem gaugeSet_nil {α : Type} (labels : List String) (v : α) :
    gaugeSet ([] : Gauge α) labels v = [(labels, v)] := rfl

theorem gaugeSet_cons {α : Type} (l : List String) (w : α) (rest : Gauge α)
    (labels : List String) (v : α) :
    gaugeSet ((l, w) :: rest) labels v
      = if l = labels then (l, v) :: rest else (l, w) :: gaugeSet rest labels v := rfl

theorem mem_keys_gaugeSet {α : Type} :
    ∀ (g : Gauge α) (k : List String) (v : α) (l : List String),
      l ∈ (gaugeSet g k v).map Prod.fst ↔ l ∈ g.map Prod.fst ∨ l = k
  | [], k, v, l => by
    rw [gaugeSet_nil]
    simp only [List.map_cons, List.map_nil, List.mem_cons, List.not_mem_nil]
    tauto
  | (k0, v0) :: rest, k, v, l => by
    by_cases h : k0 = k
    · subst h
      rw [gaugeSet_cons, if_pos rfl]
      simp only [List.map_cons, List.mem_cons]
      tauto
    · rw [gaugeSet_cons, if_neg h]
      simp only [List.map_cons, List.mem_cons]
      rw [mem_keys_gaugeSet rest k v l]
      tauto

theorem mem_keys_publishAux {α : Type} :
    ∀ (results : List (List String × α)) (acc : Gauge α) (l : List String),
      l ∈ (results.foldl (fun a r => gaugeSet a r.1 r.2) acc).map Prod.fst
        ↔ l ∈ acc.map Prod.fst ∨ l ∈ results.map Prod.fst
  | [], acc, l => by
    simp only [List.foldl_nil, List.map_nil, List.not_mem_nil, or_false]
  | r :: rest, acc, l => by
    simp only [List.foldl_cons, List.map_cons, List.mem_cons]
    rw [mem_keys_publishAux rest (gaugeSet acc r.1 r.2) l, mem_keys_gaugeSet]
    tauto

/-- C7: reset-then-set idempotence — running a collector's publish phase
(gauge reset followed by setting every label combination derived this cycle)
twice in a row yields the same final gauge state as running it once, and
after a publish phase the gauge contains exactly this cycle's label
combinations. -/
theorem publish_spec :
    (∀ (α : Type) (results : List (List String × α)) (g : Gauge α),
      publish results (publish results g) = publish results g) ∧
    (∀ (α : Type) (results : List (List String × α)) (g : Gauge α) (l : List String),
      l ∈ (publish results g).map Prod.fst ↔ l ∈ results.map Prod.fst) :=
  ⟨fun _ _ _ => rfl,
   fun _ results g l => by
    show l ∈ (results.foldl (fun a r => gaugeSet a r.1 r.2) []).map Prod.fst ↔ _
    rw [mem_keys_publishAux]
    simp only [List.map_nil, List.not_mem_nil, false_or]⟩

/-- Counterexample for C8: with an empty resolved repository list at
startup and a later tick whose snapshot is the non-empty `[["org/repo"]]`,
the workflow-runs collector runs no cycle at all — it returned before
entering its ticker loop — so it does not resume collection once the list
becomes non-empty, contradicting the claim. -/
theorem runsCollector_empty_start_cex :
    runsCollectorCycles [] [["org/repo"]] ≠ [["org/repo"]] := by decide

/-- C8 (amended): the repository-runner collector treats an empty resolved
list per cycle — that tick publishes nothing and is skipped, and a later
non-empty tick runs a full cycle — and the workflow-runs collector processes
every tick's snapshot when its startup snapshot is non-empty; but when the
resolved list is empty at the moment the workflow-runs collector starts, it
returns permanently and never runs a cycle. -/
theorem collector_idle_spec :
    (∀ tickRepos : List (List String),
      (runnersCollectorCycles tickRepos).length = tickRepos.length) ∧
    (∀ (tickRepos : List (List String)) (i : Nat),
      tickRepos[i]? = some [] → (runnersCollectorCycles tickRepos)[i]? = some none) ∧
    (∀ (tickRepos : List (List String)) (i : Nat) (repos : List String),
      tickRepos[i]? = some repos → repos ≠ [] →
      (runnersCollectorCycles tickRepos)[i]? = some (some repos)) ∧
    (∀ (startupRepos : List String) (tickRepos : List (List String)),
      startupRepos ≠ [] → runsCollectorCycles startupRepos tickRepos = tickRepos) ∧
    (∀ tickRepos : List (List String), runsCollectorCycles [] tickRepos = []) := by
  refine ⟨?_, ?_, ?_, ?_, ?_⟩
  · intro t
    exact List.length_map t _
  · intro t i h
    rw [runnersCollectorCycles, List.getElem?_map, h]
    rfl
  · intro t i r h hne
    rw [runnersCollectorCycles, List.getElem?_map, h]
    simp [hne]
  · intro s t h
    simp [runsCollectorCycles, h]
  · intro t
    simp [runsCollectorCycles]

/-- Witness for C8 (amended): a runs collector started with a non-empty
list processes both later ticks, including an empty one that publishes
nothing. -/
theorem collector_idle_spec_witness :
    runsCollectorCycles ["o/r"] [[], ["o/r"]] = [[], ["o/r"]] :=
  collector_idle_spec.2.2.2.1 ["o/r"] [[], ["o/r"]] (by decide)

/-- C9: a runner record with any nil identity attribute (id, name, os,
status, busy), or a nil record, contributes no published series for the
cycle; every complete record contributes exactly one series, valued 1 when
the status equals "online" and 0 otherwise — for both the repository- and
the organization-runner collector. -/
theorem runner_status_spec :
    (∀ (name : String) (r : Runner),
      (r.id = none ∨ r.name = none ∨ r.os = none ∨ r.status = none ∨ r.busy = none) →
      processRepoRunner name (some r) = none ∧ processOrgRunner name (some r) = none) ∧
    (∀ name : String, processRepoRunner name none = none ∧ processOrgRunner name none = none) ∧
    (∀ (name : String) (i : Int) (n o s : String) (b : Bool),
      processRepoRunner name (some ⟨some i, some n, some o, some s, some b⟩)
        = some ([name, o, n, toString i, formatBool b], if s = "online" then 1 else 0) ∧
      processOrgRunner name (some ⟨some i, some n, some o, some s, some b⟩)
        = some ([name, o, n, toString i, formatBool b], if s = "online" then 1 else 0)) ∧
    (∀ (name : String) (runners : List (Option Runner)),
      (repoRunnersCycleSeries name runners).length
        = (runners.filter isCompleteRunner).length) := by
  refine ⟨?_, ?_, ?_, ?_⟩
  · intro name r hnull
    obtain ⟨rid, rn, ro, rs, rb⟩ := r
    refine ⟨?_, ?_⟩ <;>
      cases rid <;> cases rn <;> cases ro <;> cases rs <;> cases rb <;>
        first
          | rfl
          | simp at hnull
  · intro name
    exact ⟨rfl, rfl⟩
  · intro name i n o s b
    exact ⟨rfl, rfl⟩
  · intro name runners
    induction runners with
    | nil => rfl
    | cons orun rest ih =>
      cases orun with
      | none =>
        simpa [repoRunnersCycleSeries, List.filterMap_cons, List.filter_cons,
          isCompleteRunner, processRepoRunner] using ih
      | some r =>
        obtain ⟨rid, rn, ro, rs, rb⟩ := r
        cases rid <;> cases rn <;> cases ro <;> cases rs <;> cases rb <;>
          simpa [repoRunnersCycleSeries, List.filterMap_cons, List.filter_cons,
            isCompleteRunner, processRepoRunner] using ih

/-- Witness for C9: a complete online repository runner publishes 1, a
complete offline organization runner publishes 0, and a record missing its
busy attribute publishes nothing. -/
theorem runner_status_spec_witness :
    processRepoRunner "o/r" (some ⟨some 5, some "runner1", some "linux", some "online", some true⟩)
      = some (["o/r", "linux", "runner1", "5", "true"], 1) ∧
    processOrgRunner "acme" (some ⟨some 5, some "runner1", some "linux", some "offline", some false⟩)
      = some (["acme", "linux", "runner1", "5", "false"], 0) ∧
    processRepoRunner "o/r" (some ⟨some 5, some "runner1", some "linux", some "online", none⟩)
      = none := by
  refine ⟨?_, ?_, ?_⟩
  · have h := (runner_status_spec.2.2.1 "o/r" 5 "runner1" "linux" "online" true).1
    rw [h]
    decide
  · have h := (runner_status_spec.2.2.1 "acme" 5 "runner1" "linux" "offline" false).2
    rw [h]
    decide
  · exact (runner_status_spec.1 "o/r" ⟨some 5, some "runner1", some "linux", some "online", none⟩
      (by simp)).1

theorem lookup_eq_none_of_keys {β : Type} :
    ∀ (l : List (String × β)) (k : String), (∀ e ∈ l, e.1 ≠ k) → l.lookup k = none
  | [], _, _ => rfl
  | (k0, v) :: rest, k, h => by
    have hk : k0 ≠ k := h (k0, v) (List.mem_cons_self _ _)
    have hb : (k == k0) = false := beq_eq_false_iff_ne.mpr (fun he => hk he.symm)
    simp only [List.lookup, hb]
    exact lookup_eq_none_of_keys rest k (fun e he => h e (List.mem_cons_of_mem _ he))

theorem mem_buildWorkflowCache (repos : List String)
    (fetch : String → List (Int × Option Workflow))
    (entry : String × List (Int × Option Workflow))
    (h : entry ∈ buildWorkflowCache repos fetch) :
    entry.1 ∈ repos ∧ entry.2 = fetch entry.1 ∧ entry.2 ≠ [] := by
  obtain ⟨repo, hrepo, hf⟩ := List.mem_filterMap.mp h
  by_cases h2 : (repo.splitOn "/").length = 2
  · by_cases h3 : fetch repo = []
    · simp [h2, h3] at hf
    · rw [if_pos h2, if_pos h3] at hf
      have he := Option.some.inj hf
      subst he
      exact ⟨hrepo, rfl, h3⟩
  · simp [h2] at hf


theorem mem_billableSeriesForWorkflow_head
    (repo : String) (wf : Option Workflow) (u : Option (List (String × Option Int)))
    (s : List String × ℚ) (hs : s ∈ billableSeriesForWorkflow repo wf u) :
    s.1.head? = some repo := by
  cases wf with
  | none => simp [billableSeriesForWorkflow] at hs
  | some w =>
    obtain ⟨wid, wname, wnode, wstate⟩ := w
    cases wid with
    | none => simp [billableSeriesForWorkflow] at hs
    | some wid =>
      cases wname with
      | none => simp [billableSeriesForWorkflow] at hs
      | some wname =>
        cases wnode with
        | none => simp [billableSeriesForWorkflow] at hs
        | some wnode =>
          cases wstate with
          | none => simp [billableSeriesForWorkflow] at hs
          | some wstate =>
            cases u with
            | none => simp [billableSeriesForWorkflow] at hs
            | some billMap =>
              obtain ⟨p, hp, he⟩ := List.mem_filterMap.mp hs
              cases hv : p.2 with
              | none => rw [hv] at he; exact absurd he (by simp)
              | some t =>
                rw [hv] at he
                have := Option.some.inj he
                subst this
                rfl

theorem mem_billableSeries_head (cache : WorkflowCache)
    (usage : String → Int → Option (List (String × Option Int)))
    (s : List String × ℚ) (hs : s ∈ billableSeries cache usage) :
    ∃ entry ∈ cache, s.1.head? = some entry.1 := by
  obtain ⟨entry, hentry, hs2⟩ := List.mem_flatMap.mp hs
  by_cases h2 : (entry.1.splitOn "/").length = 2
  · rw [if_pos h2] at hs2
    obtain ⟨wfe, hwfe, hs3⟩ := List.mem_flatMap.mp hs2
    exact ⟨entry, hentry, mem_billableSeriesForWorkflow_head _ _ _ _ hs3⟩
  · rw [if_neg h2] at hs2
    exact absurd hs2 (by simp)

/-- C10 (implicit): after a cache refresh, the workflow-definition cache has
an entry for a repository only if at least one definition was fetched for
it; a repository whose definition fetch failed or returned zero definitions
has no cache entry, its runs resolve the workflow-name field to the
sentinel, and the billing collector — which iterates only cache entries —
publishes no usage series labelled with that repository. -/
theorem workflowCache_spec :
    (∀ (repos : List String) (fetch : String → List (Int × Option Workflow))
        (entry : String × List (Int × Option Workflow)),
      entry ∈ buildWorkflowCache repos fetch →
      entry.1 ∈ repos ∧ entry.2 = fetch entry.1 ∧ entry.2 ≠ []) ∧
    (∀ (repos : List String) (fetch : String → List (Int × Option Workflow))
        (repo : String), fetch repo = [] →
      (buildWorkflowCache repos fetch).lookup repo = none) ∧
    (∀ (repos : List String) (fetch : String → List (Int × Option Workflow))
        (repo : String) (run : WorkflowRun), fetch repo = [] →
      getFieldValue (buildWorkflowCache repos fetch) repo run "workflow_name"
        = unknownWorkflowName) ∧
    (∀ (repos : List String) (fetch : String → List (Int × Option Workflow))
        (usage : String → Int → Option (List (String × Option Int)))
        (repo : String), fetch repo = [] →
      ∀ s ∈ billableSeries (buildWorkflowCache repos fetch) usage,
        s.1.head? ≠ some repo) := by
  have hlook : ∀ (repos : List String) (fetch : String → List (Int × Option Workflow))
      (repo : String), fetch repo = [] →
      (buildWorkflowCache repos fetch).lookup repo = none := by
    intro repos fetch repo hf
    refine lookup_eq_none_of_keys _ _ ?_
    intro e he hke
    obtain ⟨-, hfe, hne⟩ := mem_buildWorkflowCache repos fetch e he
    rw [hke, hf] at hfe
    exact hne hfe
  refine ⟨mem_buildWorkflowCache, hlook, ?_, ?_⟩
  · intro repos fetch repo run hf
    have h := hlook repos fetch repo hf
    simp [getFieldValue, h]
  · intro repos fetch usage repo hf s hs hhead
    obtain ⟨entry, hentry, hh⟩ := mem_billableSeries_head _ usage s hs
    rw [hh] at hhead
    have hke : entry.1 = repo := Option.some.inj hhead
    obtain ⟨-, hfe, hne⟩ := mem_buildWorkflowCache repos fetch entry hentry
    rw [hke, hf] at hfe
    exact hne hfe

/-- Witness for C10: with a single configured repository whose definition
fetch returns nothing, the built cache has no entry for it and its runs
render the sentinel. -/
theorem workflowCache_spec_witness :
    (buildWorkflowCache ["a/b"] fun _ => []).lookup "a/b" = none ∧
    getFieldValue (buildWorkflowCache ["a/b"] fun _ => []) "a/b" emptyRun "workflow_name"
      = unknownWorkflowName :=
  ⟨workflowCache_spec.2.1 ["a/b"] (fun _ => []) "a/b" rfl,
   workflowCache_spec.2.2.1 ["a/b"] (fun _ => []) "a/b" emptyRun rfl⟩

end GithubActionsExporter
